import Mathlib

/-!
Verification development for the hapi-serve-s3 request handler
(bucket/key resolution, content negotiation, upload pipeline).

The JavaScript source is shallowly embedded: every pure computation of the
handler becomes a Lean function; external collaborators (the S3 client, the
multipart parser, the Node `path` library, the `content-disposition`
formatter, user-supplied resolver functions) are modelled by the values they
return for the current request.  Machine integers do not occur; JS strings
become `String`/`List Char`.
-/

namespace HapiServeS3

/-! ## Small list utilities (explicit versions, used by the path model) -/

/-- Index of the first character satisfying `p`, counted from the front. -/
def findIdxP (p : Char → Bool) : List Char → Option Nat
  | [] => none
  | c :: rest => if p c then some 0 else (findIdxP p rest).map (· + 1)

theorem findIdxP_cons (p : Char → Bool) (c : Char) (l : List Char) :
    findIdxP p (c :: l) = if p c then some 0 else (findIdxP p l).map (· + 1) := rfl

theorem findIdxP_append_of_none (p : Char → Bool) (l r : List Char)
    (h : ∀ c ∈ l, p c = false) :
    findIdxP p (l ++ r) = (findIdxP p r).map (· + l.length) := by
  induction l with
  | nil => simp [Option.map_id]
  | cons c t ih =>
    have hc : p c = false := h c (by simp)
    have ht : ∀ x ∈ t, p x = false := fun x hx => h x (by simp [hx])
    rw [List.cons_append, findIdxP_cons, hc, ih ht]
    cases findIdxP p r
    · simp
    · simp
      omega

theorem takeWhile_append_of_all (p : Char → Bool) (l : List Char) (x : Char) (r : List Char)
    (hl : ∀ c ∈ l, p c = true) (hx : p x = false) :
    (l ++ x :: r).takeWhile p = l := by
  induction l with
  | nil => simp [List.takeWhile_cons, hx]
  | cons c t ih =>
    have hc : p c = true := hl c (by simp)
    have ht : ∀ y ∈ t, p y = true := fun y hy => hl y (by simp [hy])
    simp [List.takeWhile_cons, hc, ih ht]

theorem dropWhile_cons_of_neg (p : Char → Bool) (c : Char) (l : List Char)
    (h : p c = false) : (c :: l).dropWhile p = c :: l := by
  simp [List.dropWhile_cons, h]

/-! ## Model of the Node `path.posix` functions used by the source

`helpers.js` and `upload.js` call `Path.join`, `Path.dirname`,
`Path.extname` and `Path.basename` from the Node standard library; the
following definitions model those functions (POSIX flavour) on
`List Char`.  `join` concatenates the non-empty arguments with `/` and
normalizes the result; normalization drops empty and `.` segments and
resolves `..` segments against a segment stack. -/

/-- Split on `/` (the separator itself is dropped; empty segments are kept,
so `splitSegsL "a//b"` is `["a", "", "b"]`). -/
def splitSegsL : List Char → List (List Char)
  | [] => [[]]
  | c :: rest =>
    if c = '/' then [] :: splitSegsL rest
    else (c :: (splitSegsL rest).headD []) :: (splitSegsL rest).tail

/-- Rejoin segments with `/` separators (inverse of `splitSegsL`). -/
def joinSegsL : List (List Char) → List Char
  | [] => []
  | [s] => s
  | s :: ss => s ++ '/' :: joinSegsL ss

/-- Segment-level core of Node path normalization: skip empty and `.`
segments; on `..` pop the stack when possible, otherwise keep the `..`
only for relative paths (`up = true`). -/
def normSegsL (up : Bool) (stack : List (List Char)) : List (List Char) → List (List Char)
  | [] => stack
  | seg :: rest =>
    if seg = [] ∨ seg = ['.'] then normSegsL up stack rest
    else if seg = ['.', '.'] then
      if stack ≠ [] ∧ stack.getLastD [] ≠ ['.', '.'] then normSegsL up stack.dropLast rest
      else if up then normSegsL up (stack ++ [seg]) rest
      else normSegsL up stack rest
    else normSegsL up (stack ++ [seg]) rest

/-- Last character of a list, with a fallback (JS `p.charCodeAt(p.length - 1)`). -/
def lastD : List Char → Char → Char
  | [], a => a
  | c :: t, _ => lastD t c

/-- Model of `path.posix.normalize`. -/
def normalizeL (p : List Char) : List Char :=
  match p with
  | [] => ['.']
  | c0 :: _ =>
    let isAbs := c0 = '/'
    let trail := lastD p ' ' = '/'
    let body := joinSegsL (normSegsL (!isAbs) [] (splitSegsL p))
    if body = [] then
      if isAbs then ['/'] else if trail then ['.', '/'] else ['.']
    else
      let body1 := if trail then body ++ ['/'] else body
      if isAbs then '/' :: body1 else body1

/-- Model of `path.posix.join`: concatenate the non-empty arguments with
`/` and normalize; with no non-empty argument the result is `.`. -/
def joinPathsL (parts : List (List Char)) : List Char :=
  match parts.filter (fun s => !s.isEmpty) with
  | [] => ['.']
  | ne => normalizeL (joinSegsL ne)

/-- Model of `path.posix.dirname` (trailing separators skipped, result is
the part before the last remaining separator). -/
def dirnameL (p : List Char) : List Char :=
  match p with
  | [] => ['.']
  | c0 :: _ =>
    let rev := p.reverse
    let stripped := rev.dropWhile (fun c => c == '/')
    let t := rev.length - stripped.length
    match findIdxP (fun c => c == '/') stripped with
    | none => if c0 = '/' then ['/'] else ['.']
    | some k =>
      let i0 := p.length - 1 - (t + k)
      if i0 = 0 then ['/']
      else if c0 = '/' ∧ i0 = 1 then ['/', '/']
      else p.take i0

/-- Model of `path.posix.extname`: the suffix of the final path component
starting at its last dot; empty when there is no dot, when the last dot is
the leading character of the component, or when the component is `..`. -/
def extnameL (p : List Char) : List Char :=
  let baseRev := ((p.reverse.dropWhile (fun c => c == '/')).takeWhile (fun c => c != '/'))
  let base := baseRev.reverse
  match findIdxP (fun c => c == '.') baseRev with
  | none => []
  | some k =>
    let j := base.length - 1 - k
    if j = 0 then []
    else if base = ['.', '.'] then []
    else base.drop j

/-- Model of `path.posix.basename` (no suffix argument): the final path
component, with trailing separators stripped. -/
def basenameL (p : List Char) : List Char :=
  ((p.reverse.dropWhile (fun c => c == '/')).takeWhile (fun c => c != '/')).reverse

/-- String wrapper for `joinPathsL`. -/
def pathJoin (args : List String) : String := ⟨joinPathsL (args.map String.data)⟩

/-- String wrapper for `dirnameL`. -/
def dirname (p : String) : String := ⟨dirnameL p.data⟩

/-- String wrapper for `extnameL`. -/
def extname (p : String) : String := ⟨extnameL p.data⟩

/-- String wrapper for `basenameL`. -/
def basename (p : String) : String := ⟨basenameL p.data⟩

example : pathJoin ["files", "a/b.pdf"] = "files/a/b.pdf" := by decide
example : pathJoin ["", "a/b.pdf", ""] = "a/b.pdf" := by decide
example : pathJoin ["files", "..", "x"] = "x" := by decide
example : dirname "files/1.pdf" = "files" := by decide
example : dirname "1.pdf" = "." := by decide
example : extname "files/1.pdf" = ".pdf" := by decide
example : extname "files/archive" = "" := by decide
example : basename "files/1.pdf" = "1.pdf" := by decide

/-! ## Model of `Hoek.base64urlEncode` and the randomized key

`internals.randomizeKey` (helpers, part_001 lines 134-148) allocates a
32-byte zero-filled buffer, writes a version-4 UUID (16 random bytes) at
offset 0 via `Uuid.v4(null, buf)`, base64url-encodes the whole buffer and
joins `dirname(key)` with the encoded token followed by `extname(key)`.
The 16 random bytes drawn for the call are passed in explicitly as
`rand`. -/

/-- The URL-safe base64 alphabet (standard base64 with `+` replaced by `-`
and `/` by `_`; `Hoek.base64urlEncode` also strips the `=` padding). -/
def b64chars : List Char :=
  [ 'A', 'B', 'C', 'D', 'E', 'F', 'G', 'H', 'I', 'J', 'K', 'L', 'M',
    'N', 'O', 'P', 'Q', 'R', 'S', 'T', 'U', 'V', 'W', 'X', 'Y', 'Z',
    'a', 'b', 'c', 'd', 'e', 'f', 'g', 'h', 'i', 'j', 'k', 'l', 'm',
    'n', 'o', 'p', 'q', 'r', 's', 't', 'u', 'v', 'w', 'x', 'y', 'z',
    '0', '1', '2', '3', '4', '5', '6', '7', '8', '9', '-', '_' ]

/-- The alphabet character for a 6-bit value. -/
def encChar (v : Nat) : Char := b64chars.getD (v % 64) 'A'

/-- Unpadded URL-safe base64 encoding of a byte list. -/
def base64urlEncode : List Nat → List Char
  | [] => []
  | [b0] => [encChar (b0 / 4), encChar (b0 % 4 * 16)]
  | [b0, b1] => [encChar (b0 / 4), encChar (b0 % 4 * 16 + b1 / 16), encChar (b1 % 16 * 4)]
  | b0 :: b1 :: b2 :: rest =>
    encChar (b0 / 4) :: encChar (b0 % 4 * 16 + b1 / 16) ::
      encChar (b1 % 16 * 4 + b2 / 64) :: encChar (b2 % 64) :: base64urlEncode rest

/-- The 32-byte buffer built by `internals.randomizeKey`: `Buffer.alloc(32)`
zero-fills 32 bytes, then `Uuid.v4(null, buf)` overwrites the first 16 with
the UUID bytes `rand`. -/
def uuidBuf (rand : List Nat) : List Nat := (rand ++ List.replicate 32 0).take 32

/-- Model of `internals.randomizeKey` (helpers, part_001 lines 134-148). -/
def randomizeKey (test : Bool) (key : String) (rand : List Nat) : String :=
  if !test then key
  else pathJoin [dirname key, String.mk (base64urlEncode (uuidBuf rand)) ++ extname key]

/-! ## Errors

Every failure produced by the handler is a Boom error carrying an HTTP
status code; `Helpers.S3Error` wraps an S3 client failure (its optional
`statusCode`, defaulting to 500) and `Boom.conflict`, `Boom.badData`,
`Boom.unsupportedMediaType` and `Helpers.BadImplementationError` carry the
fixed codes 409, 422, 415 and 500. -/

structure BoomErr where
  status : Nat
  msg : String
  deriving Repr, DecidableEq

/-- Model of `Helpers.BadImplementationError` (status 500). -/
def badImplementation (m : String) : BoomErr := ⟨500, m⟩

/-- Model of `Boom.conflict` as raised by `assertObjectDoesNotExist`. -/
def conflictErr (bucket key : String) : BoomErr :=
  ⟨409, "the file s3://" ++ bucket ++ "/" ++ key ++ " does already exist"⟩

/-- Model of `Boom.badData` (422). -/
def badData (m : String) : BoomErr := ⟨422, m⟩

/-- Model of `Boom.unsupportedMediaType` (415). -/
def unsupportedMediaType (m : String) : BoomErr := ⟨415, m⟩

/-- Model of `Helpers.S3Error` (helpers, part_001 lines 189-199): status is
the status reported by the S3 client, defaulting to 500; a 404 gets the
could-not-find message. -/
def s3Error (code : Option Nat) (bucket key : String) : BoomErr :=
  ⟨code.getD 500,
    if code.getD 500 = 404 then "could not find Object: s3://" ++ bucket ++ "/" ++ key
    else ""⟩

/-! ## Route configuration values

Configuration fields that are "literal or resolver function" are embedded
as a tagged value; a resolver function is represented by the value it
resolves to for the current request (resolvers are arbitrary user code
outside this repository). -/

/-- The `bucket` route option: a string, a resolver, or absent/invalid. -/
inductive BucketConf
  | litB (s : String)
  | fnB (out : String)
  | noneB
  deriving Repr, DecidableEq

/-- The `key` route option: a string, a resolver, or absent. -/
inductive KeyConf
  | litK (s : String)
  | fnK (out : String)
  | noneK
  deriving Repr, DecidableEq

/-- The `filename` route option: absent, or a resolver; the resolver
receives the filename extracted from the existing content-disposition and
returns the filename to use (or nothing). -/
inductive FilenameConf
  | noneF
  | fnF (f : Option String → Option String)

/-- The `contentType` route option: absent, a literal, or a resolver; the
resolver receives the reported content type. -/
inductive CTConf
  | noneC
  | litC (s : String)
  | fnC (f : Option String → Option String)

/-- The per-request content-disposition mode resolved by `getMode`
(`false` becomes `off`). -/
inductive Mode
  | off
  | auto
  | attachment
  | inline
  deriving Repr, DecidableEq

def modeName : Mode → String
  | .off => ""
  | .auto => "auto"
  | .attachment => "attachment"
  | .inline => "inline"

/-- Model of `Helpers.getBucket` (helpers, part_001 lines 111-124). -/
def getBucket : BucketConf → Except BoomErr String
  | .litB s => .ok s
  | .fnB out => .ok out
  | .noneB => .error (badImplementation "cannot resolve \x22bucket\x22")

/-- Model of `Helpers.getKey` followed by `internals.randomizeKey`
(helpers, part_001 lines 157-181).  A resolver-function key is used as is;
otherwise the string key (or the empty string) is joined with the `path`
route parameter and the per-part file key, failing when all three are
empty.  Randomization is applied to the result in both cases. -/
def getKey (conf : KeyConf) (pathParam : String) (fileKey : String)
    (randomize : Bool) (rand : List Nat) : Except BoomErr String :=
  match conf with
  | .fnK out => .ok (randomizeKey randomize out rand)
  | _ =>
    let base := match conf with | .litK s => s | _ => ""
    if base = "" ∧ pathParam = "" ∧ fileKey = "" then
      .error (badImplementation "cannot resolve \x22key\x22")
    else .ok (randomizeKey randomize (pathJoin [base, pathParam, fileKey]) rand)

/-! ## Content type and content disposition -/

/-- JS-truthiness guarded lookup used by `overrideContentTypes[type]`. -/
def lookupOverride (overrides : List (String × String)) (t : String) : Option String :=
  match overrides.lookup t with
  | some v => if v = "" then none else some v
  | none => none

/-- The `applyOverrides` closure of `Helpers.getContentType` (helpers,
part_001 lines 278-285): replace a truthy type that has a truthy mapping in
`overrideContentTypes`. -/
def applyOverrides (overrides : List (String × String)) : Option String → Option String
  | none => none
  | some t => if t = "" then some t else
      match lookupOverride overrides t with
      | some v => some v
      | none => some t

/-- Model of `Helpers.getContentType` (helpers, part_001 lines 261-290):
take the configured literal, or the resolver output (the resolver receives
the reported type unchanged), or the reported type; then apply the
override substitution to that result. -/
def getContentType (conf : CTConf) (overrides : List (String × String))
    (reported : Option String) : Option String :=
  let t := match conf with
    | .litC s => some s
    | .fnC f => f reported
    | .noneC => reported
  applyOverrides overrides t

/-- Parse result of an existing `content-disposition` header value (the
external `content-disposition` or `content` parser): the disposition type
and the optional `filename` parameter. -/
structure ParsedDisp where
  dtype : String
  filename : Option String
  deriving Repr, DecidableEq

/-- Model of `internals.getFilename` (helpers, part_001 lines 303-317):
a configured resolver wins; with no resolver, modes `attachment` and
`inline` fall back to the key basename; otherwise the filename extracted
from the existing header (possibly absent) is used. -/
def getFilename (conf : FilenameConf) (mode : Mode) (key : String)
    (fname : Option String) : Option String :=
  match conf with
  | .fnF f => f fname
  | .noneF =>
    if mode = .attachment ∨ mode = .inline then some (basename key)
    else fname

/-- Quoted-string escaping of the `content-disposition` formatter (ASCII
filenames): backslash-escape `"` and `\`. -/
def qstring (s : String) : String :=
  ⟨s.data.foldr (fun c acc => if c = '\x22' ∨ c = '\\' then '\\' :: c :: acc else c :: acc) []⟩

/-- Model of `ContentDisposition(fname, { type })` for ASCII filenames:
`type; filename="fname"`. -/
def formatDisp (t fn : String) : String :=
  t ++ "; filename=\x22" ++ qstring fn ++ "\x22"

/-- Model of `Helpers.getContentDisposition` (helpers, part_001 lines
323-363).  `ex` is the parse of the existing header (`none` when the
header is absent).  Mode `off` yields no header; otherwise the type is the
mode itself for `attachment`/`inline`, and for `auto` the parsed existing
type when it is `inline`/`attachment`, else `attachment`.  The filename
comes from `internals.getFilename`; a missing or empty filename yields no
header at all. -/
def getContentDisposition (conf : FilenameConf) (mode : Mode) (key : String)
    (ex : Option ParsedDisp) : Option String :=
  match mode with
  | .off => none
  | _ =>
    let parsedName : Option String := ex.bind (fun d => d.filename)
    let t0 : Option String :=
      ex.bind (fun d => if d.dtype = "inline" ∨ d.dtype = "attachment" then some d.dtype else none)
    let t1 := if mode = .auto ∧ t0 = none then some "attachment" else t0
    let t2 := if mode ≠ .auto then some (modeName mode) else t1
    match getFilename conf mode key parsedName with
    | none => none
    | some fn => if fn = "" then none else some (formatDisp (t2.getD "") fn)

example :
    getContentDisposition (.fnF (fun _ => some "1.pdf")) .auto "x" none
      = some "attachment; filename=\x221.pdf\x22" := by decide
example :
    getContentDisposition .noneF .attachment "files/1.pdf" none
      = some "attachment; filename=\x221.pdf\x22" := by decide
example :
    getContentDisposition .noneF .inline "files/1.pdf" (some ⟨"attachment", some "z.pdf"⟩)
      = some "inline; filename=\x221.pdf\x22" := by decide
example : getContentDisposition .noneF .auto "files/1.pdf" none = none := by decide

/-! ## Allow-list and ignore-list matching -/

/-- One entry of `allowedContentTypes` or `ignoredFormKeys`: a literal
string, a regular expression (embedded as its test function), or a sparse
`undefined` entry (allowed by the schema to whitelist missing content
types). -/
inductive Pat
  | lit (s : String)
  | rex (t : String → Bool)
  | undef

/-- One step of the loop in `Helpers.hasMatch` (helpers, part_001 lines
244-252): a regex entry matches when its test accepts the item (JS
stringifies a missing item to `"undefined"`); otherwise strict equality. -/
def patMatch (item : Option String) : Pat → Bool
  | .lit s => item == some s
  | .rex t => t (item.getD "undefined")
  | .undef => item == none

/-- Model of `Helpers.hasMatch` (helpers, part_001 lines 236-255): `false`
when the list is not configured, else any entry matches. -/
def hasMatch (allowed : Option (List Pat)) (item : Option String) : Bool :=
  match allowed with
  | none => false
  | some pats => pats.any (patMatch item)

/-! ## S3 metadata lookup and the upload existence guard -/

/-- Outcome of the external `headObject` call for a bucket/key: the object
exists, or the client fails with an optional HTTP status code. -/
inductive HeadResult
  | found
  | errS3 (code : Option Nat)
  deriving Repr, DecidableEq

/-- Model of `Helpers.getObjectMetaData` (helpers, part_001 lines 208-226):
reject empty bucket/key with a 500, otherwise surface the client outcome,
wrapping failures through `Helpers.S3Error`. -/
def getObjectMetaData (bucket key : String) (head : HeadResult) : Except BoomErr Unit :=
  if bucket = "" ∨ key = "" then
    .error (badImplementation "bucket or key cannot not be empty")
  else
    match head with
    | .found => .ok ()
    | .errS3 c => .error (s3Error c bucket key)

/-- Model of `assertObjectDoesNotExist` (upload.js lines 101-113): an
existing object becomes a 409 Conflict; a wrapped 404 lookup failure is
the expected path (continue); any other failure is re-raised.  (The
Conflict itself flows through the same catch and is re-raised because its
status is not 404.) -/
def assertObjectDoesNotExist (bucket key : String) (head : HeadResult) : Except BoomErr Unit :=
  match getObjectMetaData bucket key head with
  | .ok _ => .error (conflictErr bucket key)
  | .error e => if e.status = 404 then .ok () else .error e

/-! ## The POST upload pipeline (upload.js) -/

/-- Parse of the content-disposition header of one multipart part (the
external `content` parser): disposition type, `name` and `filename`
parameters (missing or empty parameters are `none`). -/
structure PartDisp where
  dtype : String
  name : Option String
  filename : Option String
  deriving Repr, DecidableEq

/-- One entry of the parsed request payload: the form key, the parsed part
content-disposition header (if any), the part content-type header (if
any), and the random bytes the UUID generator would produce for this part
([key randomization only). -/
structure Part where
  formKey : String
  disp : Option PartDisp
  ctHeader : Option String
  rand : List Nat

/-- Model of `internals.getFileKey` (upload.js lines 22-38): prefer the
part content-disposition `filename`, then its `name`, then the form key. -/
def getFileKey (p : Part) : String :=
  match p.disp with
  | none => p.formKey
  | some d =>
    match d.filename with
    | some f => f
    | none =>
      match d.name with
      | some n => n
      | none => p.formKey

/-- The existing-header view that `getContentDispositionAndType`
(upload.js lines 116-125) passes to `Helpers.getContentDisposition`. -/
def partToParsed (d : PartDisp) : ParsedDisp := ⟨d.dtype, d.filename⟩

/-- Model of `Content.type(header).mime` for the request content-type
header: the portion before the first `;`, with surrounding whitespace
removed. -/
def mimeOf (s : String) : String :=
  ⟨(((s.data.takeWhile (fun c => c != ';')).dropWhile (fun c => c.isWhitespace)).reverse.dropWhile
      (fun c => c.isWhitespace)).reverse⟩

/-- The route and request inputs of the upload handler. -/
structure UploadCtx where
  bucketConf : BucketConf
  keyConf : KeyConf
  pathParam : String
  randomPostKeys : Bool
  mode : Mode
  filenameConf : FilenameConf
  ctConf : CTConf
  overrides : List (String × String)
  allowedContentTypes : Option (List Pat)
  ignoredFormKeys : Option (List Pat)
  reqCT : Option String

/-- The data carried by a part that survived preparation (the tuple
`[file, bucket, key, type, disposition]` of upload.js). -/
structure Prepared where
  formKey : String
  bucket : String
  key : String
  ctype : Option String
  dispo : Option String
  deriving Repr, DecidableEq

/-- The request-level checks of `assertUploadIsValid` (upload.js lines
144-161) that precede the ignored-form-keys check: a missing request
content-type header is a 422, a non-multipart one is a 415, and a
configured allow list must match the derived content type. -/
def validateChecks (ctx : UploadCtx) (ctype : Option String) : Except BoomErr Unit :=
  match ctx.reqCT with
  | none => .error (badData "missing content-type header")
  | some h =>
    if mimeOf h ≠ "multipart/form-data" then
      .error (unsupportedMediaType
        ("request must be a multipart form-data but found " ++ mimeOf h))
    else
      match ctx.allowedContentTypes with
      | none => .ok ()
      | some pats =>
        if pats.any (patMatch ctype) then .ok ()
        else .error (unsupportedMediaType "content-type is not allowed")

/-- Model of `assertUploadIsValid` (upload.js lines 128-169): the
request-level checks, then the ignore list; a blacklisted form key yields
`false` (the JS `null`, i.e. a dropped part), otherwise `true`. -/
def assertUploadIsValid (ctx : UploadCtx) (p : Part) (ctype : Option String) :
    Except BoomErr Bool :=
  match validateChecks ctx ctype with
  | .error e => .error e
  | .ok _ =>
    if hasMatch ctx.ignoredFormKeys (some p.formKey) then .ok false else .ok true

/-- The preparation pipeline of one part (upload.js lines 188-196):
`getBucketAndKey`, `assertObjectDoesNotExist`,
`getContentDispositionAndType`, `assertUploadIsValid`, each stage chained
on the success of the previous one.  `head` is the outcome of the external
metadata lookup per bucket/key.  `some prep` is a kept part, `none` a
dropped one. -/
def preparePart (ctx : UploadCtx) (head : String → String → HeadResult) (p : Part) :
    Except BoomErr (Option Prepared) :=
  match getBucket ctx.bucketConf with
  | .error e => .error e
  | .ok bucket =>
    match getKey ctx.keyConf ctx.pathParam (getFileKey p) ctx.randomPostKeys p.rand with
    | .error e => .error e
    | .ok key =>
      match assertObjectDoesNotExist bucket key (head bucket key) with
      | .error e => .error e
      | .ok _ =>
        let ctype := getContentType ctx.ctConf ctx.overrides p.ctHeader
        let dispo := getContentDisposition ctx.filenameConf ctx.mode key (p.disp.map partToParsed)
        match assertUploadIsValid ctx p ctype with
        | .error e => .error e
        | .ok true => .ok (some ⟨p.formKey, bucket, key, ctype, dispo⟩)
        | .ok false => .ok none

/-- The same pipeline truncated just before the ignored-form-keys check:
everything a blacklisted part still goes through before it may be
dropped. -/
def prepareBeforeIgnore (ctx : UploadCtx) (head : String → String → HeadResult) (p : Part) :
    Except BoomErr Prepared :=
  match getBucket ctx.bucketConf with
  | .error e => .error e
  | .ok bucket =>
    match getKey ctx.keyConf ctx.pathParam (getFileKey p) ctx.randomPostKeys p.rand with
    | .error e => .error e
    | .ok key =>
      match assertObjectDoesNotExist bucket key (head bucket key) with
      | .error e => .error e
      | .ok _ =>
        let ctype := getContentType ctx.ctConf ctx.overrides p.ctHeader
        let dispo := getContentDisposition ctx.filenameConf ctx.mode key (p.disp.map partToParsed)
        match validateChecks ctx ctype with
        | .error e => .error e
        | .ok _ => .ok ⟨p.formKey, bucket, key, ctype, dispo⟩

/-- Model of `Promise.all` over settled results: the collected successes,
or the first failure in part order. -/
def collectAll {α : Type} : List (Except BoomErr α) → Except BoomErr (List α)
  | [] => .ok []
  | r :: rs =>
    match r with
    | .error e => .error e
    | .ok a =>
      match collectAll rs with
      | .error e => .error e
      | .ok rest => .ok (a :: rest)

/-- The outcome of the `prepareFiles` phase for a whole request. -/
def prepareResult (ctx : UploadCtx) (head : String → String → HeadResult)
    (parts : List Part) : Except BoomErr (List (Option Prepared)) :=
  collectAll (parts.map (preparePart ctx head))

/-- The `putObject` targets of the store phase: empty when preparation
failed, otherwise one call per kept part (upload.js lines 202-207 run only
after `prepareFiles` has resolved). -/
def storeCalls (ctx : UploadCtx) (head : String → String → HeadResult)
    (parts : List Part) : List (String × String) :=
  match prepareResult ctx head parts with
  | .error _ => []
  | .ok prepared => (prepared.filterMap id).map (fun f => (f.bucket, f.key))

/-! ## Temporal model of the two-phase POST orchestration

`Upload.handler` chains `prepareFiles` (a `Promise.all` over the per-part
preparation pipelines) and only then `uploadFiles` (a `Promise.all` over
the per-part `putObject` calls).  The interleaving of the asynchronous
per-part pipelines is modelled by a scheduler: part `i` moves through
stages 1 (bucket/key resolved), 2 (existence checked), 3 (content
type/disposition derived), 4 (preparation terminal: success, drop or
failure), 5 (stored).  The `.then(uploadFiles)` barrier means a store
step is enabled only when every part is at stage 4 or later, the part
itself prepared successfully and no part failed.  A run records the entry
events `(part, stage)` in order. -/

/-- Terminal preparation outcome of one part. -/
inductive POutcome
  | ok
  | drop
  | fail
  deriving Repr, DecidableEq

/-- Pointwise state update. -/
def bumpSt (st : Nat → Nat) (i v : Nat) : Nat → Nat :=
  fun j => if j = i then v else st j

/-- One scheduler step: advance part `i` if its next transition is
enabled; store transitions additionally require the `Promise.all`
barrier. -/
def stepUpload (n : Nat) (out : Nat → POutcome) (st : Nat → Nat) (i : Nat) :
    Option ((Nat → Nat) × (Nat × Nat)) :=
  if i < n then
    let s := st i
    if s < 4 then some (bumpSt st i (s + 1), (i, s + 1))
    else if s = 4 ∧ out i = POutcome.ok ∧ (∀ j, j < n → 4 ≤ st j) ∧
        (∀ j, j < n → out j ≠ POutcome.fail) then
      some (bumpSt st i 5, (i, 5))
    else none
  else none

/-- Run a schedule (a list of part choices); disabled choices are skipped.
Returns the final state and the event trace. -/
def runUpload (n : Nat) (out : Nat → POutcome) : List Nat → (Nat → Nat) →
    (Nat → Nat) × List (Nat × Nat)
  | [], st => (st, [])
  | i :: sched, st =>
    match stepUpload n out st i with
    | none => runUpload n out sched st
    | some (st', ev) =>
      let r := runUpload n out sched st'
      (r.1, ev :: r.2)

/-- Invariant tying states to traces: a part at stage 4 or later has its
terminal-preparation event in the trace, and everything before any store
event contains the terminal-preparation event of every part. -/
def InvU (n : Nat) (st : Nat → Nat) (evs : List (Nat × Nat)) : Prop :=
  (∀ j, j < n → 4 ≤ st j → (j, 4) ∈ evs) ∧
  (∀ as i bs, evs = as ++ (i, 5) :: bs → ∀ j, j < n → (j, 4) ∈ as)

theorem append_singleton_split {α : Type} (as bs l : List α) (x e : α)
    (h : as ++ x :: bs = l ++ [e]) :
    (bs = [] ∧ as = l ∧ x = e) ∨ (∃ bs', bs = bs' ++ [e] ∧ l = as ++ x :: bs') := by
  rcases List.eq_nil_or_concat bs with rfl | ⟨bs', b, rfl⟩
  · left
    have h' : as ++ [x] = l ++ [e] := by simpa using h
    obtain ⟨h1, h2⟩ := List.append_inj' h' (by simp)
    exact ⟨rfl, h1, by simpa using h2⟩
  · right
    have h' : (as ++ x :: bs') ++ [b] = l ++ [e] := by simpa using h
    obtain ⟨h1, h2⟩ := List.append_inj' h' (by simp)
    have hb : b = e := by simpa using h2
    exact ⟨bs', by rw [hb, List.concat_eq_append], h1.symm⟩

theorem stepUpload_inv (n : Nat) (out : Nat → POutcome) (st : Nat → Nat) (i : Nat)
    (st' : Nat → Nat) (ev : Nat × Nat) (evs : List (Nat × Nat))
    (hstep : stepUpload n out st i = some (st', ev)) (hinv : InvU n st evs) :
    InvU n st' (evs ++ [ev]) := by
  simp only [stepUpload] at hstep
  by_cases hi : i < n
  · rw [if_pos hi] at hstep
    by_cases hs : st i < 4
    · rw [if_pos hs] at hstep
      have hst' : bumpSt st i (st i + 1) = st' := congrArg Prod.fst (Option.some.inj hstep)
      have hev : ((i, st i + 1) : Nat × Nat) = ev := congrArg Prod.snd (Option.some.inj hstep)
      constructor
      · intro j hj h4
        by_cases hji : j = i
        · subst hji
          rw [← hst'] at h4
          simp only [bumpSt, if_pos] at h4
          have h41 : st j + 1 = 4 := by omega
          refine List.mem_append_right _ ?_
          rw [← hev, h41]
          simp
        · rw [← hst'] at h4
          simp only [bumpSt, if_neg hji] at h4
          exact List.mem_append_left _ (hinv.1 j hj h4)
      · intro as x bs heq j hj
        rcases append_singleton_split as bs evs (x, 5) ev heq.symm with ⟨-, -, hxe⟩ | ⟨bs', -, hl⟩
        · rw [← hev] at hxe
          have h5 : (5 : Nat) = st i + 1 := congrArg Prod.snd hxe
          omega
        · exact hinv.2 as x bs' hl j hj
    · by_cases hc : st i = 4 ∧ out i = POutcome.ok ∧ (∀ j, j < n → 4 ≤ st j) ∧
          (∀ j, j < n → out j ≠ POutcome.fail)
      · rw [if_neg hs, if_pos hc] at hstep
        have hst' : bumpSt st i 5 = st' := congrArg Prod.fst (Option.some.inj hstep)
        constructor
        · intro j hj h4
          by_cases hji : j = i
          · subst hji
            exact List.mem_append_left _ (hinv.1 j hj (by omega))
          · rw [← hst'] at h4
            simp only [bumpSt, if_neg hji] at h4
            exact List.mem_append_left _ (hinv.1 j hj h4)
        · intro as x bs heq j hj
          rcases append_singleton_split as bs evs (x, 5) ev heq.symm with ⟨-, has, -⟩ | ⟨bs', -, hl⟩
          · subst has
            exact hinv.1 j hj (hc.2.2.1 j hj)
          · exact hinv.2 as x bs' hl j hj
      · rw [if_neg hs, if_neg hc] at hstep
        exact absurd hstep (by simp)
  · rw [if_neg hi] at hstep
    exact absurd hstep (by simp)

theorem runUpload_inv (n : Nat) (out : Nat → POutcome) :
    ∀ (sched : List Nat) (st : Nat → Nat) (evs : List (Nat × Nat)),
      InvU n st evs →
      InvU n (runUpload n out sched st).1 (evs ++ (runUpload n out sched st).2)
  | [], st, evs, h => by simpa [runUpload] using h
  | i :: sched, st, evs, h => by
    unfold runUpload
    cases hstep : stepUpload n out st i with
    | none => simpa using runUpload_inv n out sched st evs h
    | some pr =>
      obtain ⟨st', ev⟩ := pr
      have h' := stepUpload_inv n out st i st' ev evs hstep h
      have hrec := runUpload_inv n out sched st' (evs ++ [ev]) h'
      simpa [List.append_assoc] using hrec

/-! ## The GET reply delegation (serve.js, concatenated in schemas.js)

`replyWithStream` (schemas.js lines 540-567) builds the options object
passed to a configured `onResponse` literally as
`{ bucket, key, contentType: type, contentDisposition: disposition }`;
`replyWithError` (schemas.js lines 569-580) calls
`onResponse(error, null, request, reply)` with the options argument
omitted.  The call is recorded field by field so that the set of option
keys is observable. -/

/-- A JS value stored in the options object. -/
inductive OptVal
  | s (v : String)
  | o (v : Option String)
  | n (v : Nat)
  deriving Repr, DecidableEq

/-- One `onResponse` invocation: error argument, whether a stream was
passed, and the options object (`none` when the argument is omitted). -/
structure OnRespCall where
  err : Option BoomErr
  hasStream : Bool
  opts : Option (List (String × OptVal))
  deriving Repr, DecidableEq

/-- The options object built by `replyWithStream` (schemas.js lines
545-550). -/
def serveSuccessOpts (bucket key : String) (ct cd : Option String) :
    List (String × OptVal) :=
  [("bucket", .s bucket), ("key", .s key), ("contentType", .o ct),
   ("contentDisposition", .o cd)]

/-- The `onResponse` call made by `replyWithStream` on GET success when a
delegate is configured. -/
def serveReplySuccess (bucket key : String) (ct cd : Option String) : OnRespCall :=
  ⟨none, true, some (serveSuccessOpts bucket key ct cd)⟩

/-- The `onResponse` call made by the serve handler `replyWithError` on
GET failure when a delegate is configured. -/
def serveReplyError (e : BoomErr) : OnRespCall :=
  ⟨some e, false, none⟩

/-! ## Lemmas about the path model -/

theorem dropWhile_of_ne_nil_all_false (p : Char → Bool) (l r : List Char)
    (hl : l ≠ []) (h : ∀ c ∈ l, p c = false) :
    (l ++ r).dropWhile p = l ++ r := by
  cases l with
  | nil => exact absurd rfl hl
  | cons c t => exact dropWhile_cons_of_neg p c (t ++ r) (h c (by simp))

theorem dropWhile_prepend_ok (p : Char → Bool) (l : List Char) (c₀ : Char) (r : List Char)
    (h : ∀ c ∈ l, p c = false) (h₀ : p c₀ = false) :
    (l ++ c₀ :: r).dropWhile p = l ++ c₀ :: r := by
  cases l with
  | nil => exact dropWhile_cons_of_neg p c₀ r h₀
  | cons c t => exact dropWhile_cons_of_neg p c (t ++ c₀ :: r) (h c (by simp))

theorem lastD_append_cons (c : Char) (m : List Char) :
    ∀ (l : List Char) (a : Char), lastD (l ++ c :: m) a = lastD m c
  | [], a => rfl
  | y :: t, a => by
    rw [List.cons_append]
    rw [show lastD (y :: (t ++ c :: m)) a = lastD (t ++ c :: m) y from rfl]
    exact lastD_append_cons c m t y

theorem lastD_mem_or (l : List Char) (a : Char) : lastD l a = a ∨ lastD l a ∈ l := by
  induction l generalizing a with
  | nil => exact Or.inl rfl
  | cons c t ih =>
    rw [show lastD (c :: t) a = lastD t c from rfl]
    rcases ih c with h | h
    · exact Or.inr (by simp [h])
    · exact Or.inr (by simp [h])

theorem splitSegsL_cons_slash (rest : List Char) :
    splitSegsL ('/' :: rest) = [] :: splitSegsL rest := by
  simp [splitSegsL]

theorem splitSegsL_cons_ns (c : Char) (rest : List Char) (hc : c ≠ '/') :
    splitSegsL (c :: rest)
      = (c :: (splitSegsL rest).headD []) :: (splitSegsL rest).tail := by
  simp [splitSegsL, hc]

theorem splitSegsL_ne_nil : ∀ p : List Char, splitSegsL p ≠ []
  | [] => by simp [splitSegsL]
  | c :: rest => by
    by_cases hc : c = '/' <;> simp [splitSegsL, hc]

theorem joinSegsL_splitSegsL : ∀ p : List Char, joinSegsL (splitSegsL p) = p
  | [] => rfl
  | c :: rest => by
    have ih := joinSegsL_splitSegsL rest
    by_cases hc : c = '/'
    · subst hc
      rw [splitSegsL_cons_slash]
      cases h : splitSegsL rest with
      | nil => exact absurd h (splitSegsL_ne_nil rest)
      | cons s ss =>
        rw [h] at ih
        rw [show joinSegsL ([] :: s :: ss) = [] ++ '/' :: joinSegsL (s :: ss) from rfl]
        rw [List.nil_append, ih]
    · rw [splitSegsL_cons_ns c rest hc]
      cases h : splitSegsL rest with
      | nil => exact absurd h (splitSegsL_ne_nil rest)
      | cons s ss =>
        rw [h] at ih
        simp only [List.headD_cons, List.tail_cons]
        cases ss with
        | nil =>
          have hs : s = rest := ih
          rw [show joinSegsL [c :: s] = c :: s from rfl, hs]
        | cons s2 ss2 =>
          rw [show joinSegsL ((c :: s) :: s2 :: ss2)
                = (c :: s) ++ '/' :: joinSegsL (s2 :: ss2) from rfl]
          rw [show joinSegsL (s :: s2 :: ss2)
                = s ++ '/' :: joinSegsL (s2 :: ss2) from rfl] at ih
          rw [List.cons_append, ih]

theorem splitSegsL_append : ∀ a b : List Char, splitSegsL (a ++ '/' :: b) = splitSegsL a ++ splitSegsL b
  | [], b => by simp [splitSegsL]
  | c :: a', b => by
    have ih := splitSegsL_append a' b
    by_cases hc : c = '/'
    · subst hc
      rw [List.cons_append, splitSegsL_cons_slash, splitSegsL_cons_slash, ih]
      rfl
    · rw [List.cons_append, splitSegsL_cons_ns c _ hc, splitSegsL_cons_ns c _ hc, ih]
      cases h : splitSegsL a' with
      | nil => exact absurd h (splitSegsL_ne_nil a')
      | cons s ss => simp

theorem splitSegsL_no_slash : ∀ a : List Char, (∀ c ∈ a, c ≠ '/') → splitSegsL a = [a]
  | [], _ => rfl
  | c :: a', h => by
    have hc : c ≠ '/' := h c (by simp)
    have ih := splitSegsL_no_slash a' (fun x hx => h x (by simp [hx]))
    simp [splitSegsL, hc, ih]

/-- All path segments of `d` are plain names (no empty, `.` or `..`
segment): `d` is a normalization-invariant relative directory path. -/
def PlainSegs (d : List Char) : Prop :=
  ∀ s ∈ splitSegsL d, s ≠ [] ∧ s ≠ ['.'] ∧ s ≠ ['.', '.']

instance (d : List Char) : Decidable (PlainSegs d) := by
  unfold PlainSegs
  infer_instance

theorem plain_head_ne_slash (d : List Char) (hp : PlainSegs d) : d.head? ≠ some '/' := by
  cases d with
  | nil => simp
  | cons c t =>
    intro h
    have hc : c = '/' := by simpa using h
    subst hc
    have : ([] : List Char) ∈ splitSegsL ('/' :: t) := by
      simp [splitSegsL]
    exact (hp [] this).1 rfl

theorem normSegsL_plain (up : Bool) :
    ∀ (segs stack : List (List Char)),
      (∀ s ∈ segs, s ≠ [] ∧ s ≠ ['.'] ∧ s ≠ ['.', '.']) →
      normSegsL up stack segs = stack ++ segs
  | [], stack, _ => by simp [normSegsL]
  | seg :: rest, stack, h => by
    obtain ⟨h1, h2, h3⟩ := h seg (by simp)
    have hrest : ∀ s ∈ rest, s ≠ [] ∧ s ≠ ['.'] ∧ s ≠ ['.', '.'] :=
      fun s hs => h s (by simp [hs])
    have hor : ¬(seg = [] ∨ seg = ['.']) := by simp [h1, h2]
    simp only [normSegsL, hor, if_false, h3, if_false]
    rw [normSegsL_plain up rest (stack ++ [seg]) hrest]
    simp

theorem dirnameL_append (d s : List Char) (hd : d ≠ []) (hd0 : d.head? ≠ some '/')
    (hs : s ≠ []) (hsc : ∀ c ∈ s, c ≠ '/') :
    dirnameL (d ++ '/' :: s) = d := by
  obtain ⟨c0, d', rfl⟩ : ∃ c0 d', d = c0 :: d' := by
    cases d with
    | nil => exact absurd rfl hd
    | cons c0 d' => exact ⟨c0, d', rfl⟩
  have hc0 : c0 ≠ '/' := by
    intro h
    exact hd0 (by simp [h])
  show dirnameL (c0 :: (d' ++ '/' :: s)) = c0 :: d'
  have hrev : (c0 :: (d' ++ '/' :: s)).reverse = s.reverse ++ '/' :: (d'.reverse ++ [c0]) := by
    simp
  have hsrev : ∀ c ∈ s.reverse, (c == '/') = false := by
    intro c hc
    simpa using hsc c (List.mem_reverse.mp hc)
  have hsrevne : s.reverse ≠ [] := by simpa using hs
  have hdrop : (s.reverse ++ '/' :: (d'.reverse ++ [c0])).dropWhile (fun c => c == '/')
      = s.reverse ++ '/' :: (d'.reverse ++ [c0]) :=
    dropWhile_of_ne_nil_all_false _ _ _ hsrevne hsrev
  have hfind : findIdxP (fun c => c == '/') (s.reverse ++ '/' :: (d'.reverse ++ [c0]))
      = some (0 + s.reverse.length) := by
    rw [findIdxP_append_of_none _ _ _ hsrev]
    simp [findIdxP]
  simp only [dirnameL, hrev, hdrop, hfind]
  have hi0 : (c0 :: (d' ++ '/' :: s)).length - 1 -
      ((s.reverse ++ '/' :: (d'.reverse ++ [c0])).length -
        (s.reverse ++ '/' :: (d'.reverse ++ [c0])).length + (0 + s.reverse.length))
      = d'.length + 1 := by
    simp
    omega
  rw [hi0]
  have hne0 : ¬(d'.length + 1 = 0) := by omega
  rw [if_neg hne0]
  have hcon : ¬(c0 = '/' ∧ d'.length + 1 = 1) := fun h => hc0 h.1
  rw [if_neg hcon]
  have htake : (c0 :: (d' ++ '/' :: s)).take (d'.length + 1) = c0 :: d' := by
    have h1 : (c0 :: d').length = d'.length + 1 := by simp
    rw [show (c0 :: (d' ++ '/' :: s) : List Char) = (c0 :: d') ++ '/' :: s from rfl]
    rw [← h1, List.take_left]
  rw [htake]

theorem extnameL_append (d tok sfx : List Char) (ht : tok ≠ [])
    (htc : ∀ c ∈ tok, c ≠ '/' ∧ c ≠ '.') (hsc : ∀ c ∈ sfx, c ≠ '/' ∧ c ≠ '.') :
    extnameL (d ++ '/' :: (tok ++ '.' :: sfx)) = '.' :: sfx := by
  have hrev : (d ++ '/' :: (tok ++ '.' :: sfx)).reverse
      = sfx.reverse ++ '.' :: (tok.reverse ++ '/' :: d.reverse) := by
    simp
  have hsfxrev : ∀ c ∈ sfx.reverse, (c == '/') = false := by
    intro c hc
    simpa using (hsc c (List.mem_reverse.mp hc)).1
  have hdrop : (sfx.reverse ++ '.' :: (tok.reverse ++ '/' :: d.reverse)).dropWhile
      (fun c => c == '/') = sfx.reverse ++ '.' :: (tok.reverse ++ '/' :: d.reverse) := by
    exact dropWhile_prepend_ok _ _ _ _ hsfxrev (by decide)
  have htake : (sfx.reverse ++ '.' :: (tok.reverse ++ '/' :: d.reverse)).takeWhile
      (fun c => c != '/') = sfx.reverse ++ '.' :: tok.reverse := by
    have hall : ∀ c ∈ (sfx.reverse ++ '.' :: tok.reverse : List Char), (c != '/') = true := by
      intro c hc
      rcases List.mem_append.mp hc with h | h
      · simpa using (hsc c (List.mem_reverse.mp h)).1
      · rcases List.mem_cons.mp h with rfl | h
        · decide
        · simpa using (htc c (List.mem_reverse.mp h)).1
    have := takeWhile_append_of_all (fun c => c != '/')
      (sfx.reverse ++ '.' :: tok.reverse) '/' d.reverse hall (by decide)
    simpa using this
  have hbase : (sfx.reverse ++ '.' :: tok.reverse : List Char).reverse
      = tok ++ '.' :: sfx := by
    simp
  have hsfxrevdot : ∀ c ∈ sfx.reverse, (c == '.') = false := by
    intro c hc
    simpa using (hsc c (List.mem_reverse.mp hc)).2
  have hfind : findIdxP (fun c => c == '.') (sfx.reverse ++ '.' :: tok.reverse)
      = some sfx.length := by
    rw [findIdxP_append_of_none _ _ _ hsfxrevdot]
    simp [findIdxP]
  simp only [extnameL, hrev, hdrop, htake, hfind, hbase]
  have hlen : (tok ++ '.' :: sfx : List Char).length = tok.length + 1 + sfx.length := by
    simp
    omega
  have hj : (tok ++ '.' :: sfx : List Char).length - 1 - sfx.length = tok.length := by
    rw [hlen]
    omega
  rw [hj]
  have htne : tok.length ≠ 0 := by simpa using ht
  rw [if_neg htne]
  have hbne : (tok ++ '.' :: sfx : List Char) ≠ ['.', '.'] := by
    intro h
    obtain ⟨t0, tr, rfl⟩ : ∃ t0 tr, tok = t0 :: tr := by
      cases tok with
      | nil => exact absurd rfl ht
      | cons t0 tr => exact ⟨t0, tr, rfl⟩
    have ht0 : t0 = '.' := by
      have := congrArg (·.head?) h
      simpa using this
    exact (htc t0 (by simp)).2 ht0
  rw [if_neg hbne]
  have : (tok ++ '.' :: sfx : List Char).drop tok.length = '.' :: sfx := List.drop_left _ _
  rw [this]

theorem lastD_cons_mem : ∀ (t : List Char) (c a : Char), lastD (c :: t) a ∈ c :: t
  | [], c, a => by simp [lastD]
  | y :: t, c, a => by
    rw [show lastD (c :: y :: t) a = lastD (y :: t) c from rfl]
    exact List.mem_cons_of_mem c (lastD_cons_mem t y c)

theorem normalizeL_plain (p : List Char) (hne : p ≠ []) (h0 : p.head? ≠ some '/')
    (hlast : lastD p ' ' ≠ '/')
    (hplain : ∀ s ∈ splitSegsL p, s ≠ [] ∧ s ≠ ['.'] ∧ s ≠ ['.', '.']) :
    normalizeL p = p := by
  obtain ⟨c0, p', rfl⟩ : ∃ c0 p', p = c0 :: p' := by
    cases p with
    | nil => exact absurd rfl hne
    | cons c0 p' => exact ⟨c0, p', rfl⟩
  have hc0 : c0 ≠ '/' := by
    intro h
    exact h0 (by simp [h])
  have hbody : joinSegsL (normSegsL (!decide (c0 = '/')) [] (splitSegsL (c0 :: p')))
      = c0 :: p' := by
    rw [normSegsL_plain _ _ _ hplain]
    simpa using joinSegsL_splitSegsL (c0 :: p')
  simp only [normalizeL, hbody]
  have hbne : c0 :: p' ≠ [] := by simp
  rw [if_neg hbne]
  have htr : ¬(lastD (c0 :: p') ' ' = '/') := hlast
  rw [if_neg htr, if_neg hc0]

theorem joinPathsL_two (d x : List Char) (hd : d ≠ []) (hpd : PlainSegs d)
    (hx : x ≠ []) (hxd : x ≠ ['.']) (hxdd : x ≠ ['.', '.'])
    (hxs : ∀ c ∈ x, c ≠ '/') :
    joinPathsL [d, x] = d ++ '/' :: x := by
  have hdd : (d.isEmpty : Bool) = false := by
    cases d with
    | nil => exact absurd rfl hd
    | cons c t => rfl
  have hxx : (x.isEmpty : Bool) = false := by
    cases x with
    | nil => exact absurd rfl hx
    | cons c t => rfl
  have hfil : ([d, x] : List (List Char)).filter (fun s => !s.isEmpty) = [d, x] := by
    simp [List.filter, hdd, hxx]
  have hjoin : joinSegsL [d, x] = d ++ '/' :: x := by
    simp [joinSegsL]
  have hstep : joinPathsL [d, x] = normalizeL (d ++ '/' :: x) := by
    unfold joinPathsL
    rw [hfil, ← hjoin]
  rw [hstep]
  have hdne : d ++ '/' :: x ≠ [] := by
    cases d with
    | nil => exact absurd rfl hd
    | cons c t => simp
  have h0 : (d ++ '/' :: x).head? ≠ some '/' := by
    cases d with
    | nil => exact absurd rfl hd
    | cons c t =>
      have hc : c ≠ '/' := by
        intro h
        exact plain_head_ne_slash _ hpd (by simp [h])
      simpa using hc
  have hlast : lastD (d ++ '/' :: x) ' ' ≠ '/' := by
    rw [lastD_append_cons]
    cases x with
    | nil => exact absurd rfl hx
    | cons xc xt => exact hxs _ (lastD_cons_mem xt xc '/')
  have hplain : ∀ s ∈ splitSegsL (d ++ '/' :: x), s ≠ [] ∧ s ≠ ['.'] ∧ s ≠ ['.', '.'] := by
    rw [splitSegsL_append, splitSegsL_no_slash x hxs]
    intro s hs
    rcases List.mem_append.mp hs with h | h
    · exact hpd s h
    · rcases List.mem_singleton.mp h with rfl
      exact ⟨hx, hxd, hxdd⟩
  exact normalizeL_plain _ hdne h0 hlast hplain


/-! ## Lemmas about the base64url encoder -/

theorem getD_mem_or_default (d : Char) :
    ∀ (l : List Char) (i : Nat), l.getD i d ∈ l ∨ l.getD i d = d
  | [], i => Or.inr (by simp [List.getD])
  | c :: t, 0 => Or.inl (by simp [List.getD])
  | c :: t, i + 1 => by
    rcases getD_mem_or_default d t i with h | h
    · exact Or.inl (by simp [List.getD] at h ⊢; exact Or.inr h)
    · exact Or.inr (by simp [List.getD] at h ⊢; exact h)

theorem encChar_ok (v : Nat) : encChar v ≠ '/' ∧ encChar v ≠ '.' := by
  have hall : ∀ c ∈ b64chars, c ≠ '/' ∧ c ≠ '.' := by decide
  rcases getD_mem_or_default 'A' b64chars (v % 64) with h | h
  · exact hall _ h
  · rw [encChar, h]
    decide

theorem enc_chars_ok : ∀ (bs : List Nat), ∀ c ∈ base64urlEncode bs, c ≠ '/' ∧ c ≠ '.'
  | [] => by simp [base64urlEncode]
  | [b0] => by
    intro c hc
    simp [base64urlEncode] at hc
    rcases hc with rfl | rfl <;> exact encChar_ok _
  | [b0, b1] => by
    intro c hc
    simp [base64urlEncode] at hc
    rcases hc with rfl | rfl | rfl <;> exact encChar_ok _
  | b0 :: b1 :: b2 :: rest => by
    intro c hc
    simp only [base64urlEncode, List.mem_cons] at hc
    rcases hc with rfl | rfl | rfl | rfl | hmem
    · exact encChar_ok _
    · exact encChar_ok _
    · exact encChar_ok _
    · exact encChar_ok _
    · exact enc_chars_ok rest c hmem

theorem enc_length : ∀ bs : List Nat,
    (base64urlEncode bs).length
      = 4 * (bs.length / 3) + (if bs.length % 3 = 0 then 0 else bs.length % 3 + 1)
  | [] => by simp [base64urlEncode]
  | [b0] => by simp [base64urlEncode]
  | [b0, b1] => by simp [base64urlEncode]
  | b0 :: b1 :: b2 :: rest => by
    have ih := enc_length rest
    simp only [base64urlEncode, List.length_cons, ih]
    have h3 : (rest.length + 1 + 1 + 1) % 3 = rest.length % 3 := by omega
    have h4 : (rest.length + 1 + 1 + 1) / 3 = rest.length / 3 + 1 := by omega
    rw [h3, h4]
    by_cases h0 : rest.length % 3 = 0
    · simp only [if_pos h0]
      omega
    · simp only [if_neg h0]
      omega

theorem uuidBuf_length (rand : List Nat) (h : rand.length = 16) :
    (uuidBuf rand).length = 32 := by
  simp [uuidBuf, h]

theorem enc_uuidBuf_length (rand : List Nat) (h : rand.length = 16) :
    (base64urlEncode (uuidBuf rand)).length = 43 := by
  rw [enc_length, uuidBuf_length rand h]
  decide

/-! ## Joining ignores empty arguments (Node join filters them itself) -/

theorem filter_map_data : ∀ args : List String,
    ((args.filter (fun s => s ≠ "")).map String.data)
      = (args.map String.data).filter (fun l => !l.isEmpty)
  | [] => rfl
  | a :: t => by
    have ih := filter_map_data t
    by_cases h : a = ""
    · subst h
      simp only [List.filter, List.map]
      rw [show (decide (("" : String) ≠ "")) = false by decide]
      rw [show ((("" : String).data.isEmpty : Bool)) = true from rfl]
      simpa using ih
    · have h2 : (a.data.isEmpty : Bool) = false := by
        obtain ⟨l⟩ := a
        cases l with
        | nil => exact absurd rfl h
        | cons c t2 => rfl
      simp only [List.filter, List.map, h2]
      rw [show (decide (a ≠ "")) = true by simp [h]]
      simp only [List.map, ih]
      rfl

theorem pathJoin_filter (args : List String) :
    pathJoin (args.filter (fun s => s ≠ "")) = pathJoin args := by
  unfold pathJoin
  congr 1
  unfold joinPathsL
  rw [filter_map_data]
  rw [List.filter_filter]
  congr 1
  simp

/-! ## Definitions modelled from the spec wording (for refutations)

Each `spec...` definition below transcribes the wording of a claim, to be
compared against the definition transcribed from the source. -/

/-- Modelled from the spec (claim C1): in auto mode the filename is the
configured resolver output; else the filename parsed out of the existing
header; else the resolved target key basename. -/
def specAutoFilename (conf : FilenameConf) (key : String) (ex : Option ParsedDisp) :
    Option String :=
  match conf with
  | .fnF f => f (ex.bind (fun d => d.filename))
  | .noneF =>
    match ex.bind (fun d => d.filename) with
    | some fn => some fn
    | none => some (basename key)

/-- Modelled from the spec (claim C5): the final segment basename is
replaced by the URL-safe base64 encoding of the 16 randomly generated
bytes. -/
def specRandomizedKeyC5 (key : String) (rand : List Nat) : String :=
  pathJoin [dirname key, String.mk (base64urlEncode (rand.take 16)) ++ extname key]

/-- Modelled from the spec (claim C6): declared MIME type, then the
override substitution, then the optional resolver override, in that
order. -/
def specContentTypeC6 (conf : CTConf) (overrides : List (String × String))
    (declared : Option String) : Option String :=
  let t1 := applyOverrides overrides declared
  match conf with
  | .litC s => some s
  | .fnC f => f t1
  | .noneC => t1

/-- Modelled from the spec (claim C8): on GET success the options object
carries `defaultStatusCode` equal to 200. -/
def specC8CarriesStatus (c : OnRespCall) : Prop :=
  match c.opts with
  | some l => ("defaultStatusCode", OptVal.n 200) ∈ l
  | none => False

/-! ## Claim theorems -/

/-- Claim C1, counterexample: with mode `auto`, no configured filename
resolver and no existing header, the claimed precedence falls back to the
key basename (`1.pdf`, giving header `attachment; filename="1.pdf"`), but
`Helpers.getContentDisposition` resolves no header at all: the basename
fallback of `internals.getFilename` applies only to modes
`attachment`/`inline`. -/
theorem claim_C1_counterexample :
    getContentDisposition .noneF .auto "files/1.pdf" none = none
    ∧ specAutoFilename .noneF "files/1.pdf" none = some "1.pdf"
    ∧ getContentDisposition .noneF .auto "files/1.pdf" none
        ≠ some (formatDisp "attachment" "1.pdf") := by
  decide

/-- Claim C1 (amended): for mode `auto` (GET and POST alike) the filename
precedence is: the configured resolver output if a resolver is configured,
otherwise the filename parsed from the existing header; there is no key
basename fallback, and when neither source yields a filename no header is
emitted.  (The spec example with a resolver yielding `1.pdf` produces
`attachment; filename="1.pdf"`.) -/
theorem claim_C1_amended :
    ∀ (f : Option String → Option String) (key : String) (ex : Option ParsedDisp),
      getFilename (.fnF f) .auto key (ex.bind (fun d => d.filename))
          = f (ex.bind (fun d => d.filename))
      ∧ getFilename .noneF .auto key (ex.bind (fun d => d.filename))
          = ex.bind (fun d => d.filename)
      ∧ (getFilename .noneF .auto key (ex.bind (fun d => d.filename)) = none →
          getContentDisposition .noneF .auto key ex = none)
      ∧ getContentDisposition (.fnF (fun _ => some "1.pdf")) .auto "x" none
          = some "attachment; filename=\x221.pdf\x22" := by
  intro f key ex
  refine ⟨rfl, ?_, ?_, by decide⟩
  · simp [getFilename]
  · intro h
    simp only [getContentDisposition]
    rw [h]

/-- Claim C1 witness. -/
theorem claim_C1_witness :
    getFilename .noneF .auto "files/a.pdf"
        ((none : Option ParsedDisp).bind (fun d => d.filename)) = none
    ∧ getContentDisposition .noneF .auto "files/a.pdf" none = none :=
  ⟨by decide,
    (claim_C1_amended (fun o => o) "files/a.pdf" none).2.2.1 (by decide)⟩

/-- Claim C9, counterexample: with mode `attachment` (a mode that requires
a header) and a configured resolver that yields no filename, the code
emits no Content-Disposition header at all (`getContentDisposition`
resolves `null`), while the claim says the header is still emitted with
the filename parameter omitted. -/
theorem claim_C9_counterexample :
    getFilename (.fnF (fun _ => none)) .attachment "files/1.pdf" none = none
    ∧ getContentDisposition (.fnF (fun _ => none)) .attachment "files/1.pdf" none = none := by
  decide

/-- Claim C9 (amended): in every mode that requires a header, when no
filename can be determined (the resolved filename is absent or empty) the
code emits no Content-Disposition header at all, instead of a header with
the filename parameter omitted. -/
theorem claim_C9_amended (conf : FilenameConf) (mode : Mode) (key : String)
    (ex : Option ParsedDisp)
    (h : getFilename conf mode key (ex.bind (fun d => d.filename)) = none
       ∨ getFilename conf mode key (ex.bind (fun d => d.filename)) = some "") :
    getContentDisposition conf mode key ex = none := by
  cases mode with
  | off => rfl
  | auto =>
    simp only [getContentDisposition]
    rcases h with h | h
    · rw [h]
    · rw [h]
      simp
  | attachment =>
    simp only [getContentDisposition]
    rcases h with h | h
    · rw [h]
    · rw [h]
      simp
  | inline =>
    simp only [getContentDisposition]
    rcases h with h | h
    · rw [h]
    · rw [h]
      simp

/-- Claim C9 witness. -/
theorem claim_C9_witness :
    (getFilename (.fnF (fun _ => some "")) .inline "k"
        ((none : Option ParsedDisp).bind (fun d => d.filename)) = some "")
    ∧ getContentDisposition (.fnF (fun _ => some "")) .inline "k" none = none :=
  ⟨by decide,
    claim_C9_amended (.fnF (fun _ => some "")) .inline "k" none (Or.inr (by decide))⟩

/-- Claim C6, counterexample: a configured contentType resolver that
returns `a`, with `overrideContentTypes` mapping `a` to `b` and declared
part type `x`.  The claimed order (declared, then override, then resolver)
yields `a`; the code resolves the configured resolver first and applies the
override substitution to its output, yielding `b`. -/
theorem claim_C6_counterexample :
    getContentType (.fnC (fun _ => some "a")) [("a", "b")] (some "x") = some "b"
    ∧ specContentTypeC6 (.fnC (fun _ => some "a")) [("a", "b")] (some "x") = some "a"
    ∧ (some "b" : Option String) ≠ some "a" := by
  decide

/-- Claim C6 (amended): the stored content type is the configured literal,
or the configured resolver output (the resolver receives the raw declared
MIME type), or else the declared MIME type; the `overrideContentTypes`
substitution is applied last, to that result. -/
theorem claim_C6_amended :
    ∀ (f : Option String → Option String) (s : String)
      (overrides : List (String × String)) (declared : Option String),
      getContentType (.fnC f) overrides declared = applyOverrides overrides (f declared)
      ∧ getContentType (.litC s) overrides declared = applyOverrides overrides (some s)
      ∧ getContentType .noneC overrides declared = applyOverrides overrides declared :=
  fun _ _ _ _ => ⟨rfl, rfl, rfl⟩

/-- Claim C4: with a literal (possibly empty) string key configuration,
`Helpers.getKey` fails with the ConfigurationError `cannot resolve "key"`
exactly when base, path parameter and per-part file key are all empty, and
otherwise returns the POSIX join of the non-empty values among them, in
that order. -/
theorem claim_C4 :
    ∀ (base pathParam fileKey : String),
      getKey (.litK base) pathParam fileKey false []
        = if base = "" ∧ pathParam = "" ∧ fileKey = ""
          then .error (badImplementation "cannot resolve \x22key\x22")
          else .ok (pathJoin (([base, pathParam, fileKey]).filter (fun s => s ≠ ""))) := by
  intro b p f
  by_cases h : b = "" ∧ p = "" ∧ f = ""
  · rw [if_pos h]
    simp [getKey, h]
  · rw [if_neg h]
    simp only [getKey, if_neg h]
    rw [pathJoin_filter]
    rfl

/-- A concrete draw of the 16 UUID bytes (version and variant bits set as
`Uuid.v4` produces them). -/
def rand16 : List Nat := [0, 0, 0, 0, 0, 0, 64, 0, 128, 0, 0, 0, 0, 0, 0, 0]

/-- Claim C5, counterexample: the code base64url-encodes the whole 32-byte
buffer (16 UUID bytes followed by 16 zero bytes of `Buffer.alloc(32)`),
giving a 43-character token, not the encoding of a 16-byte token (22
characters) that the claim describes. -/
theorem claim_C5_counterexample :
    randomizeKey true "files/1.pdf" rand16 ≠ specRandomizedKeyC5 "files/1.pdf" rand16
    ∧ (specRandomizedKeyC5 "files/1.pdf" rand16).length = 5 + 1 + 22 + 4
    ∧ (randomizeKey true "files/1.pdf" rand16).length = 5 + 1 + 43 + 4 := by
  decide

/-- Claim C5 (amended): with randomization requested, for any key of the
form `dir/stem.sfx` (plain directory segments, non-empty dot-free stem,
dot-free extension) and any 16 random bytes, the returned key replaces
only the final segment basename by the URL-safe base64 encoding of the
32-byte buffer whose first 16 bytes are the random UUID bytes and whose
last 16 bytes are zero, preserving the extension and all parent directory
segments. -/
theorem claim_C5_amended (d stem sfx : List Char) (rand : List Nat)
    (hr : rand.length = 16) (hd : d ≠ []) (hpd : PlainSegs d)
    (hstem : stem ≠ []) (hstemc : ∀ c ∈ stem, c ≠ '/' ∧ c ≠ '.')
    (hsfx : ∀ c ∈ sfx, c ≠ '/' ∧ c ≠ '.') :
    randomizeKey true ⟨d ++ '/' :: (stem ++ '.' :: sfx)⟩ rand
        = ⟨d ++ '/' :: (base64urlEncode (uuidBuf rand) ++ '.' :: sfx)⟩
    ∧ dirname (randomizeKey true ⟨d ++ '/' :: (stem ++ '.' :: sfx)⟩ rand)
        = dirname ⟨d ++ '/' :: (stem ++ '.' :: sfx)⟩
    ∧ extname (randomizeKey true ⟨d ++ '/' :: (stem ++ '.' :: sfx)⟩ rand)
        = extname ⟨d ++ '/' :: (stem ++ '.' :: sfx)⟩ := by
  have htokchars : ∀ c ∈ base64urlEncode (uuidBuf rand), c ≠ '/' ∧ c ≠ '.' :=
    enc_chars_ok (uuidBuf rand)
  have htoklen : (base64urlEncode (uuidBuf rand)).length = 43 := enc_uuidBuf_length rand hr
  have htokne : base64urlEncode (uuidBuf rand) ≠ [] := by
    intro h
    rw [h] at htoklen
    simp at htoklen
  have hd0 : d.head? ≠ some '/' := plain_head_ne_slash d hpd
  have hxstem : stem ++ '.' :: sfx ≠ [] := by
    cases stem with
    | nil => exact absurd rfl hstem
    | cons c t => simp
  have hxstemsl : ∀ c ∈ stem ++ '.' :: sfx, c ≠ '/' := by
    intro c hc
    rcases List.mem_append.mp hc with h | h
    · exact (hstemc c h).1
    · rcases List.mem_cons.mp h with rfl | h
      · decide
      · exact (hsfx c h).1
  have hdirkey : dirnameL (d ++ '/' :: (stem ++ '.' :: sfx)) = d :=
    dirnameL_append d _ hd hd0 hxstem hxstemsl
  have hextkey : extnameL (d ++ '/' :: (stem ++ '.' :: sfx)) = '.' :: sfx :=
    extnameL_append d stem sfx hstem hstemc hsfx
  -- the token followed by the extension keeps the segment facts
  have hxtok : base64urlEncode (uuidBuf rand) ++ '.' :: sfx ≠ [] := by
    cases h : base64urlEncode (uuidBuf rand) with
    | nil => exact absurd h htokne
    | cons c t => simp [h]
  have hxtoksl : ∀ c ∈ base64urlEncode (uuidBuf rand) ++ '.' :: sfx, c ≠ '/' := by
    intro c hc
    rcases List.mem_append.mp hc with h | h
    · exact (htokchars c h).1
    · rcases List.mem_cons.mp h with rfl | h
      · decide
      · exact (hsfx c h).1
  have hxlen : (base64urlEncode (uuidBuf rand) ++ '.' :: sfx).length = 44 + sfx.length := by
    simp [htoklen]
    omega
  have hxd : base64urlEncode (uuidBuf rand) ++ '.' :: sfx ≠ ['.'] := by
    intro h
    have := congrArg List.length h
    rw [hxlen] at this
    simp at this
    omega
  have hxdd : base64urlEncode (uuidBuf rand) ++ '.' :: sfx ≠ ['.', '.'] := by
    intro h
    have := congrArg List.length h
    rw [hxlen] at this
    simp at this
    omega
  have hkey : randomizeKey true ⟨d ++ '/' :: (stem ++ '.' :: sfx)⟩ rand
      = ⟨d ++ '/' :: (base64urlEncode (uuidBuf rand) ++ '.' :: sfx)⟩ := by
    show pathJoin [dirname ⟨d ++ '/' :: (stem ++ '.' :: sfx)⟩,
        String.mk (base64urlEncode (uuidBuf rand)) ++ extname ⟨d ++ '/' :: (stem ++ '.' :: sfx)⟩]
      = ⟨d ++ '/' :: (base64urlEncode (uuidBuf rand) ++ '.' :: sfx)⟩
    rw [show dirname ⟨d ++ '/' :: (stem ++ '.' :: sfx)⟩
          = ⟨dirnameL (d ++ '/' :: (stem ++ '.' :: sfx))⟩ from rfl]
    rw [show extname ⟨d ++ '/' :: (stem ++ '.' :: sfx)⟩
          = ⟨extnameL (d ++ '/' :: (stem ++ '.' :: sfx))⟩ from rfl]
    rw [hdirkey, hextkey]
    rw [show (String.mk (base64urlEncode (uuidBuf rand)) ++ String.mk ('.' :: sfx))
          = String.mk (base64urlEncode (uuidBuf rand) ++ '.' :: sfx) from rfl]
    rw [show pathJoin [String.mk d, String.mk (base64urlEncode (uuidBuf rand) ++ '.' :: sfx)]
          = ⟨joinPathsL [d, base64urlEncode (uuidBuf rand) ++ '.' :: sfx]⟩ from rfl]
    rw [joinPathsL_two d _ hd hpd hxtok hxd hxdd hxtoksl]
  refine ⟨hkey, ?_, ?_⟩
  · rw [hkey]
    rw [show dirname ⟨d ++ '/' :: (base64urlEncode (uuidBuf rand) ++ '.' :: sfx)⟩
          = ⟨dirnameL (d ++ '/' :: (base64urlEncode (uuidBuf rand) ++ '.' :: sfx))⟩ from rfl]
    rw [show dirname ⟨d ++ '/' :: (stem ++ '.' :: sfx)⟩
          = ⟨dirnameL (d ++ '/' :: (stem ++ '.' :: sfx))⟩ from rfl]
    rw [hdirkey, dirnameL_append d _ hd hd0 hxtok hxtoksl]
  · rw [hkey]
    rw [show extname ⟨d ++ '/' :: (base64urlEncode (uuidBuf rand) ++ '.' :: sfx)⟩
          = ⟨extnameL (d ++ '/' :: (base64urlEncode (uuidBuf rand) ++ '.' :: sfx))⟩ from rfl]
    rw [show extname ⟨d ++ '/' :: (stem ++ '.' :: sfx)⟩
          = ⟨extnameL (d ++ '/' :: (stem ++ '.' :: sfx))⟩ from rfl]
    rw [hextkey, extnameL_append d _ sfx htokne htokchars hsfx]

/-- Claim C5 witness. -/
theorem claim_C5_witness :
    rand16.length = 16
    ∧ (randomizeKey true ⟨"files".data ++ '/' :: ("1".data ++ '.' :: "pdf".data)⟩ rand16
          = ⟨"files".data ++ '/' :: (base64urlEncode (uuidBuf rand16) ++ '.' :: "pdf".data)⟩
      ∧ dirname (randomizeKey true ⟨"files".data ++ '/' :: ("1".data ++ '.' :: "pdf".data)⟩ rand16)
          = dirname ⟨"files".data ++ '/' :: ("1".data ++ '.' :: "pdf".data)⟩
      ∧ extname (randomizeKey true ⟨"files".data ++ '/' :: ("1".data ++ '.' :: "pdf".data)⟩ rand16)
          = extname ⟨"files".data ++ '/' :: ("1".data ++ '.' :: "pdf".data)⟩) :=
  ⟨by decide,
    claim_C5_amended "files".data "1".data "pdf".data rand16 (by decide) (by decide)
      (by decide) (by decide) (by decide) (by decide)⟩

/-- A fixed route/request context used by concrete instances: literal
bucket `b`, no key configuration, multipart request. -/
def ctxAux : UploadCtx :=
  ⟨.litB "b", .noneK, "", false, .auto, .noneF, .noneC, [], none, none,
    some "multipart/form-data"⟩

/-- Metadata oracle: every object exists. -/
def hdFound : String → String → HeadResult := fun _ _ => .found

/-- Metadata oracle: every lookup fails with 404 (object absent). -/
def hdMissing : String → String → HeadResult := fun _ _ => .errS3 (some 404)

/-- Claim C3: for a part with non-empty bucket and key, the existence
guard turns a successful metadata lookup into a 409 Conflict failure,
passes through a 404 lookup failure as the expected non-error path,
propagates any other lookup failure with its status, and the outcome of
each part of `prepareFiles` is a function of that part alone (sibling
parts are mapped independently). -/
theorem claim_C3 (bucket key : String) (head : HeadResult)
    (ctx : UploadCtx) (hd : String → String → HeadResult) (parts : List Part) (i : Nat)
    (hb : bucket ≠ "") (hk : key ≠ "") :
    (head = .found →
        assertObjectDoesNotExist bucket key head = .error (conflictErr bucket key)
        ∧ (conflictErr bucket key).status = 409)
    ∧ (head = .errS3 (some 404) → assertObjectDoesNotExist bucket key head = .ok ())
    ∧ (∀ c, head = .errS3 c → c.getD 500 ≠ 404 →
        assertObjectDoesNotExist bucket key head = .error (s3Error c bucket key)
        ∧ (s3Error c bucket key).status = c.getD 500)
    ∧ (parts.map (preparePart ctx hd))[i]? = (parts[i]?.map (preparePart ctx hd)) := by
  have hne : ¬(bucket = "" ∨ key = "") := by
    rintro (h | h)
    · exact hb h
    · exact hk h
  refine ⟨?_, ?_, ?_, ?_⟩
  · rintro rfl
    refine ⟨?_, rfl⟩
    unfold assertObjectDoesNotExist getObjectMetaData
    rw [if_neg hne]
  · rintro rfl
    unfold assertObjectDoesNotExist getObjectMetaData
    rw [if_neg hne]
    show (if (s3Error (some 404) bucket key).status = 404 then
        Except.ok () else .error (s3Error (some 404) bucket key)) = .ok ()
    rw [if_pos]
    rfl
  · rintro c rfl hc
    refine ⟨?_, rfl⟩
    unfold assertObjectDoesNotExist getObjectMetaData
    rw [if_neg hne]
    show (if (s3Error c bucket key).status = 404 then
        Except.ok () else .error (s3Error c bucket key)) = .error (s3Error c bucket key)
    rw [if_neg]
    exact hc
  · exact List.getElem?_map (preparePart ctx hd) parts i

/-- Claim C3 witness. -/
theorem claim_C3_witness :
    ("b" : String) ≠ "" ∧
    ((HeadResult.found = .found →
        assertObjectDoesNotExist "b" "k" .found = .error (conflictErr "b" "k")
        ∧ (conflictErr "b" "k").status = 409)
      ∧ (HeadResult.found = .errS3 (some 404) →
          assertObjectDoesNotExist "b" "k" .found = .ok ())
      ∧ (∀ c, HeadResult.found = .errS3 c → c.getD 500 ≠ 404 →
          assertObjectDoesNotExist "b" "k" .found = .error (s3Error c "b" "k")
          ∧ (s3Error c "b" "k").status = c.getD 500)
      ∧ (([] : List Part).map (preparePart ctxAux hdMissing))[0]?
          = ((([] : List Part))[0]?.map (preparePart ctxAux hdMissing))) :=
  ⟨by decide, claim_C3 "b" "k" .found ctxAux hdMissing [] 0 (by decide) (by decide)⟩

/-- Claim C10: a part whose form key matches `ignoredFormKeys` still goes
through bucket/key resolution, the pre-existence check and the
content-type checks before the ignore list is consulted; its outcome is
exactly the outcome of that earlier pipeline, demoted to a drop on
success.  In particular an existing target yields the Conflict failure and
an unresolvable key the ConfigurationError, instead of a silent drop. -/
theorem claim_C10 (ctx : UploadCtx) (hd : String → String → HeadResult) (p : Part)
    (hig : hasMatch ctx.ignoredFormKeys (some p.formKey) = true) :
    preparePart ctx hd p = (prepareBeforeIgnore ctx hd p).map (fun _ => none) := by
  simp only [preparePart, prepareBeforeIgnore, assertUploadIsValid]
  cases hb : getBucket ctx.bucketConf with
  | error e => rfl
  | ok bucket =>
    dsimp only
    cases hk : getKey ctx.keyConf ctx.pathParam (getFileKey p) ctx.randomPostKeys p.rand with
    | error e => rfl
    | ok key =>
      dsimp only
      cases hm : assertObjectDoesNotExist bucket key (hd bucket key) with
      | error e => rfl
      | ok u =>
        dsimp only
        cases hv : validateChecks ctx (getContentType ctx.ctConf ctx.overrides p.ctHeader) with
        | error e => rfl
        | ok w =>
          dsimp only
          rw [if_pos hig]
          rfl

/-- A route context whose ignore list matches the form key `ign`. -/
def ctxC10 : UploadCtx :=
  ⟨.litB "b", .litK "files", "", false, .auto, .noneF, .noneC, [],
    none, some [.lit "ign"], some "multipart/form-data"⟩

/-- An uploaded part with form key `ign`. -/
def partC10 : Part := ⟨"ign", none, none, []⟩

/-- Claim C10 witness. -/
theorem claim_C10_witness :
    hasMatch ctxC10.ignoredFormKeys (some partC10.formKey) = true
    ∧ preparePart ctxC10 hdFound partC10
        = (prepareBeforeIgnore ctxC10 hdFound partC10).map (fun _ => none) :=
  ⟨by decide, claim_C10 ctxC10 hdFound partC10 (by decide)⟩

/-- The request context of a non-multipart POST carrying a JSON body,
with one entry resolving to key `files2/1.pdf`. -/
def ctxC7 : UploadCtx :=
  ⟨.litB "test", .noneK, "", false, .auto, .noneF, .noneC, [], none, none,
    some "application/json"⟩

def partC7 : Part := ⟨"files2/1.pdf", none, none, []⟩

/-- Claim C7, counterexample: for a non-multipart POST whose single part
points at an already existing object, the request fails with the 409
Conflict raised by the existence check, not with the claimed 415: the
part-level stages (key resolution, existence lookup) run before the
multipart check, which sits at the end of the per-part pipeline. -/
theorem claim_C7_counterexample :
    prepareResult ctxC7 hdFound [partC7] = .error (conflictErr "test" "files2/1.pdf")
    ∧ (conflictErr "test" "files2/1.pdf").status = 409
    ∧ (conflictErr "test" "files2/1.pdf").status ≠ 415 := by
  refine ⟨rfl, rfl, by decide⟩

/-- Claim C7 (amended): a POST whose request content type is absent or not
`multipart/form-data` and which carries at least one part always fails
(every part errors in its validation stage, after that part went through
key resolution, existence lookup and content type derivation), and no
store call is made. -/
theorem claim_C7_amended (ctx : UploadCtx) (hd : String → String → HeadResult)
    (p : Part) (rest : List Part)
    (hnm : ctx.reqCT = none ∨ ∃ s, ctx.reqCT = some s ∧ mimeOf s ≠ "multipart/form-data") :
    (∃ e, prepareResult ctx hd (p :: rest) = .error e)
    ∧ storeCalls ctx hd (p :: rest) = [] := by
  have hpart : ∀ q : Part, ∃ e, preparePart ctx hd q = .error e := by
    intro q
    simp only [preparePart, assertUploadIsValid]
    cases hb : getBucket ctx.bucketConf with
    | error e => exact ⟨e, rfl⟩
    | ok bucket =>
      dsimp only
      cases hk : getKey ctx.keyConf ctx.pathParam (getFileKey q) ctx.randomPostKeys q.rand with
      | error e => exact ⟨e, rfl⟩
      | ok key =>
        dsimp only
        cases hm : assertObjectDoesNotExist bucket key (hd bucket key) with
        | error e => exact ⟨e, rfl⟩
        | ok u =>
          dsimp only
          have hv : ∃ e, validateChecks ctx
              (getContentType ctx.ctConf ctx.overrides q.ctHeader) = .error e := by
            unfold validateChecks
            rcases hnm with h | ⟨s, hs, hm2⟩
            · rw [h]
              exact ⟨_, rfl⟩
            · rw [hs]
              dsimp only
              rw [if_pos hm2]
              exact ⟨_, rfl⟩
          obtain ⟨e, he⟩ := hv
          rw [he]
          exact ⟨e, rfl⟩
  obtain ⟨e0, he0⟩ := hpart p
  have hres : prepareResult ctx hd (p :: rest) = .error e0 := by
    unfold prepareResult
    simp only [List.map]
    unfold collectAll
    rw [he0]
  refine ⟨⟨e0, hres⟩, ?_⟩
  unfold storeCalls
  rw [hres]

/-- Claim C7 witness. -/
theorem claim_C7_witness :
    (ctxC7.reqCT = none ∨ ∃ s, ctxC7.reqCT = some s ∧ mimeOf s ≠ "multipart/form-data")
    ∧ ((∃ e, prepareResult ctxC7 hdFound (partC7 :: []) = .error e)
        ∧ storeCalls ctxC7 hdFound (partC7 :: []) = []) :=
  ⟨Or.inr ⟨"application/json", rfl, by decide⟩,
    claim_C7_amended ctxC7 hdFound partC7 []
      (Or.inr ⟨"application/json", rfl, by decide⟩)⟩

/-- Claim C2: in every interleaving of the per-part pipelines under the
`Promise.all` barrier of `Upload.handler`, any store event of any part is
preceded in the trace by the terminal preparation event of every part: all
parts finish validation before any store begins. -/
theorem claim_C2 (n : Nat) (out : Nat → POutcome) (sched : List Nat)
    (as bs : List (Nat × Nat)) (i j : Nat) (hj : j < n)
    (heq : (runUpload n out sched (fun _ => 0)).2 = as ++ (i, 5) :: bs) :
    (j, 4) ∈ as := by
  have h0 : InvU n (fun _ => 0) [] := by
    constructor
    · intro j hj h4
      simp at h4
    · intro as x bs h j hj
      simp at h
  have hrun := runUpload_inv n out sched (fun _ => 0) [] h0
  rw [List.nil_append] at hrun
  exact hrun.2 as i bs heq j hj

/-- Claim C2 witness: two parts, both prepared then both stored. -/
theorem claim_C2_witness :
    (1 : Nat) < 2
    ∧ ((1, 4) : Nat × Nat) ∈
        ([(0, 1), (0, 2), (0, 3), (0, 4), (1, 1), (1, 2), (1, 3), (1, 4)] :
          List (Nat × Nat)) :=
  ⟨by decide,
    claim_C2 2 (fun _ => POutcome.ok) [0, 0, 0, 0, 1, 1, 1, 1, 0, 1]
      [(0, 1), (0, 2), (0, 3), (0, 4), (1, 1), (1, 2), (1, 3), (1, 4)] [(1, 5)] 0 1
      (by decide) (by decide)⟩

/-- Claim C8 (code bug): on GET success with an `onResponse` delegate, the
options object built by `replyWithStream` holds exactly the keys `bucket`,
`key`, `contentType` and `contentDisposition`; it does not carry
`defaultStatusCode` (the repo schema `onResponseOptionsSchema.get` and the
option docs require `defaultStatusCode` 200 there).  On GET failure the
options argument is omitted, as the claim says. -/
theorem claim_C8_code_eval :
    (serveReplySuccess "test" "files2/1.pdf" (some "application/octet-stream") none).opts
      = some [("bucket", .s "test"), ("key", .s "files2/1.pdf"),
              ("contentType", .o (some "application/octet-stream")),
              ("contentDisposition", .o none)]
    ∧ ¬ specC8CarriesStatus
        (serveReplySuccess "test" "files2/1.pdf" (some "application/octet-stream") none)
    ∧ (serveReplyError (s3Error (some 404) "test" "files2/1.pdf")).opts = none := by
  refine ⟨rfl, ?_, rfl⟩
  intro h
  simp [specC8CarriesStatus, serveReplySuccess, serveSuccessOpts] at h

end HapiServeS3
